import Mathlib

/-
  Verification development for the bTag track-selection repository
  (tools/trackCounting.py).  The Python functions are shallowly embedded
  as executable Lean definitions over lists and rationals:

  * `selectTrack`      — the per-track selection block of `createJetTreeTC`
                         (lines 147-156), including the two `continue`
                         early exits and the evaluation counts of the
                         cut selector and of the MVA selector.
  * `buildSelTracks`   — the per-jet accumulation of `selTracks[i]`
                         (lines 158-171, selection part).
  * `emitThreshold`    — the per-threshold emission block (lines 178-193);
                         note: in the source, line 184 calls `sorted(...)`
                         and discards its result, so the list stays in
                         track-index order; this embedding is faithful to
                         that (no sort is applied).
  * `jetStep`/`runRecords` — the per-jet fill/clear of the four output
                         vectors (lines 176-203).
  * `incTotals`/`incSel`/`runCounters`/`report` — per-category counters
                         (lines 113-120, 137-145, 158-168) and the final
                         efficiency report (lines 207-215); a Python
                         ZeroDivisionError is modelled by `none`.
  * `drawEffVsCutCurve` — lines 281-303; the division by a zero divisor
                         (ZeroDivisionError) is modelled by `none`.
  * `drawROCfromEffVsCutCurves` — lines 332-360; `sys.exit(1)` on a point
                         count mismatch is modelled by `Except.error`
                         carrying the two counts that are printed.

  Machine floats of the source are modelled by exact rationals.
-/

namespace BTag

/-- Selection configuration of `createJetTreeTC`: whether a cut-based
track selector is configured (`trackCut is not None`) and, when an MVA
selector is configured, its list of cut values (`trackMVA["cuts"]`). -/
structure Config where
  cutEnabled : Bool
  mvaCuts : Option (List ℚ)
deriving DecidableEq

/-- `nCuts` of `createJetTreeTC`: 1 by default, `len(trackMVA["cuts"])`
when an MVA selector is configured (lines 84, 106). -/
def nCutsOf (cfg : Config) : ℕ :=
  match cfg.mvaCuts with
  | none => 1
  | some cuts => cuts.length

/-- A track of the input tree, as seen by the selection code: its index,
its `Track_IPsig` value, and the values the two selector oracles would
return for it (`trackCutSelector.evaluate` and
`trackMVASelector.getValue`). -/
structure TrackIn where
  idx : ℕ
  ipSig : ℚ
  cutVal : Bool
  score : ℚ
deriving DecidableEq

/-- Result of the per-track selection block (lines 147-156): the final
`keepTrack` list, how many times the cut selector was evaluated, how many
times the MVA value was computed (each computation re-synchronizes all
input-variable formulas first, `trackMVASelector.sync`), and whether a
`continue` fired (skipping the counter updates and the appends). -/
structure SelResult where
  keep : List Bool
  cutEvals : ℕ
  mvaEvals : ℕ
  earlyExit : Bool
deriving DecidableEq

/-- Lines 147-151: the `keepTrack` list right after the cut-selector
block: `[True]*nCuts`, each entry ANDed with the single cut-selector
result when a cut selector is configured. -/
def keep1Of (cfg : Config) (t : TrackIn) : List Bool :=
  if cfg.cutEnabled then (List.replicate (nCutsOf cfg) true).map (fun x => x && t.cutVal)
  else List.replicate (nCutsOf cfg) true

/-- How many times `trackCutSelector.evaluate` ran for one track: once
when configured (line 150), never otherwise. -/
def cutEvalsOf (cfg : Config) : ℕ := if cfg.cutEnabled then 1 else 0

/-- Line 155: `keepTrack` after zipping with the MVA comparisons
`[mvaValue > cut for cut in cuts]`. -/
def keep2Of (cfg : Config) (t : TrackIn) (cuts : List ℚ) : List Bool :=
  List.zipWith (fun x c => x && decide (c < t.score)) (keep1Of cfg t) cuts

/-- Lines 147-156 of `createJetTreeTC`: `keepTrack = [True]*nCuts`; if a
cut selector is configured it is evaluated once and ANDed into every
entry; `if not any(keepTrack): continue`; if an MVA selector is
configured its value is computed once and compared to every cut value;
`if not any(keepTrack): continue`. -/
def selectTrack (cfg : Config) (t : TrackIn) : SelResult :=
  if (keep1Of cfg t).any id = false then
    ⟨keep1Of cfg t, cutEvalsOf cfg, 0, true⟩
  else
    match cfg.mvaCuts with
    | none => ⟨keep1Of cfg t, cutEvalsOf cfg, 0, false⟩
    | some cuts =>
      if (keep2Of cfg t cuts).any id = false then
        ⟨keep2Of cfg t cuts, cutEvalsOf cfg, 1, true⟩
      else
        ⟨keep2Of cfg t cuts, cutEvalsOf cfg, 1, false⟩

/-- A jet of the input tree: its `Jet_genpt`, its `Jet_flavour`, and the
tracks in its `[Jet_nFirstTrack, Jet_nLastTrack)` range. -/
structure JetIn where
  genpt : ℚ
  flavour : ℤ
  tracks : List TrackIn
deriving DecidableEq

/-- The `selTracks` lists of one jet (lines 132-171, selection part):
starting from `nCuts` empty lists, each track that survives the two
`continue`s appends its `(track index, Track_IPsig)` pair to the list of
every threshold that accepted it. -/
def buildSelTracks (cfg : Config) (tracks : List TrackIn) : List (List (ℕ × ℚ)) :=
  tracks.foldl
    (fun sel t =>
      if (selectTrack cfg t).earlyExit then sel
      else
        (List.range (nCutsOf cfg)).foldl
          (fun s i =>
            if (selectTrack cfg t).keep.getD i false then
              s.set i ((s.getD i []) ++ [(t.idx, t.ipSig)])
            else s)
          sel)
    (List.replicate (nCutsOf cfg) [])

/-- The four vector-valued output branches of `createJetTreeTC`
(`Jet_nseltracks`, `Jet_Ip`, `TCHE`, `TCHP`, lines 85-86). -/
structure OutVecs where
  nseltracks : List ℚ
  ip : List ℚ
  tche : List ℚ
  tchp : List ℚ
deriving DecidableEq

/-- The empty output vectors (freshly constructed, or after `clear()`). -/
def OutVecs.empty : OutVecs := ⟨[], [], [], []⟩

/-- The default value pushed for `TCHE`/`TCHP`: `-10**10` (line 188). -/
def sentinel : ℚ := -(10 ^ 10)

/-- Lines 178-193 of `createJetTreeTC`, for one threshold index `i`:
if `selTracks[i]` is non-empty, push its length onto `Jet_nseltracks`,
push `selTracks[i][0][1]` onto `Jet_Ip`, push the sentinel onto `TCHE`
and `TCHP`, then overwrite `TCHE[i]` with `selTracks[i][1][1]` when more
than one track was selected and `TCHP[i]` with `selTracks[i][2][1]` when
more than two were.  The source's line 184 calls `sorted(...)` but drops
the returned list, so `selTracks[i]` keeps its track-index order here.
The source indexes the vectors at `i` (not at the push position); an
out-of-range index is modelled as a no-op, as `List.set` is. -/
def emitThreshold (v : OutVecs) (i : ℕ) (sel : List (ℕ × ℚ)) : OutVecs :=
  if sel.isEmpty then v
  else
    let v1 : OutVecs :=
      { v with nseltracks := v.nseltracks ++ [(sel.length : ℚ)]
               ip := v.ip ++ [(sel.headD (0, 0)).2]
               tche := v.tche ++ [sentinel]
               tchp := v.tchp ++ [sentinel] }
    let v2 : OutVecs :=
      if 1 < sel.length then { v1 with tche := v1.tche.set i (sel.getD 1 (0, 0)).2 } else v1
    if 2 < sel.length then { v2 with tchp := v2.tchp.set i (sel.getD 2 (0, 0)).2 } else v2

/-- Lines 176-203 of `createJetTreeTC`, for one jet: loop the thresholds,
emitting onto the incoming vectors; `outTree.Fill()` (modelled as the
emitted record) fires iff some threshold selected at least one track;
afterwards every vector is cleared, so the outgoing state is empty. -/
def jetStep (cfg : Config) (v : OutVecs) (j : JetIn) : OutVecs × Option OutVecs :=
  (OutVecs.empty,
   if (buildSelTracks cfg j.tracks).any (fun l => !l.isEmpty) then
     some ((List.range (nCutsOf cfg)).foldl
       (fun w i => emitThreshold w i ((buildSelTracks cfg j.tracks).getD i [])) v)
   else none)

/-- The whole jet loop: thread the vector state (initially empty, as
fresh `std::vector`s are) through every jet, collecting the records
written by `outTree.Fill()`. -/
def runRecords (cfg : Config) (jets : List JetIn) : List OutVecs :=
  (jets.foldl
    (fun (st : OutVecs × List OutVecs) j =>
      ((jetStep cfg st.1 j).1, st.2 ++ (jetStep cfg st.1 j).2.toList))
    (OutVecs.empty, [])).2

/-- Number of thresholds whose selected-track list is non-empty. -/
def countNonEmpty (sel : List (List (ℕ × ℚ))) : ℕ :=
  (sel.filter (fun l => !l.isEmpty)).length

/-- The eight per-category track counters of `createJetTreeTC`
(lines 113-120): four scalar totals and four per-threshold selected
counts. -/
structure Counters where
  totB : ℕ
  totC : ℕ
  totLight : ℕ
  totPU : ℕ
  selB : List ℕ
  selC : List ℕ
  selLight : List ℕ
  selPU : List ℕ
deriving DecidableEq

/-- The counters as initialised at lines 113-120. -/
def Counters.init (n : ℕ) : Counters :=
  ⟨0, 0, 0, 0, List.replicate n 0, List.replicate n 0, List.replicate n 0, List.replicate n 0⟩

/-- Lines 137-145: classify the track's jet and bump the matching total
(b when `|Jet_flavour| == 5`, c when `== 4`, light when `< 4 or == 21`,
all gated on `Jet_genpt >= 8`; otherwise pileup). -/
def incTotals (c : Counters) (genpt : ℚ) (flav : ℤ) : Counters :=
  if 8 ≤ genpt then
    let c1 := if flav.natAbs = 5 then { c with totB := c.totB + 1 } else c
    let c2 := if flav.natAbs = 4 then { c1 with totC := c1.totC + 1 } else c1
    if flav.natAbs < 4 ∨ flav = 21 then { c2 with totLight := c2.totLight + 1 } else c2
  else { c with totPU := c.totPU + 1 }

/-- Increment position `i` of a counter list (`nSelTracks…[i] += 1`). -/
def bump (l : List ℕ) (i : ℕ) : List ℕ :=
  l.set i (l.getD i 0 + 1)

/-- Lines 160-168: bump the matching selected counter at threshold `i`. -/
def incSel (c : Counters) (genpt : ℚ) (flav : ℤ) (i : ℕ) : Counters :=
  if 8 ≤ genpt then
    let c1 := if flav.natAbs = 5 then { c with selB := bump c.selB i } else c
    let c2 := if flav.natAbs = 4 then { c1 with selC := bump c1.selC i } else c1
    if flav.natAbs < 4 ∨ flav = 21 then { c2 with selLight := bump c2.selLight i } else c2
  else { c with selPU := bump c.selPU i }

/-- The counter updates of the track loop (lines 135-168) for one jet:
the totals are bumped for every track, before selection; tracks that hit
a `continue` skip the selected-counter updates; otherwise each accepting
threshold bumps its selected counter. -/
def jetCounters (cfg : Config) (j : JetIn) (c : Counters) : Counters :=
  j.tracks.foldl
    (fun c t =>
      if (selectTrack cfg t).earlyExit then incTotals c j.genpt j.flavour
      else
        (List.range (nCutsOf cfg)).foldl
          (fun c2 i =>
            if (selectTrack cfg t).keep.getD i false then incSel c2 j.genpt j.flavour i
            else c2)
          (incTotals c j.genpt j.flavour))
    c

/-- The counter state after the full pass over all jets. -/
def runCounters (cfg : Config) (jets : List JetIn) : Counters :=
  jets.foldl (fun c j => jetCounters cfg j c) (Counters.init (nCutsOf cfg))

/-- One efficiency of the report: `float(100*sel)/tot` (lines 212-215).
In Python 2 a zero denominator raises ZeroDivisionError; that fallible
division is embedded as `none`. -/
def effPercent (sel : ℕ) (tot : ℕ) : Option ℚ :=
  if tot = 0 then none else some ((100 * (sel : ℚ)) / (tot : ℚ))

/-- One iteration of the report loop (lines 212-215): the four printed
efficiencies for threshold `i`, or `none` if any division raises. -/
def reportLine (c : Counters) (i : ℕ) : Option (ℚ × ℚ × ℚ × ℚ) := do
  let b ← effPercent (c.selB.getD i 0) c.totB
  let cc ← effPercent (c.selC.getD i 0) c.totC
  let l ← effPercent (c.selLight.getD i 0) c.totLight
  let p ← effPercent (c.selPU.getD i 0) c.totPU
  pure (b, cc, l, p)

/-- The report loop of lines 207-215: one line per threshold; `none` as
soon as a line raises a ZeroDivisionError (the run aborts there). -/
def report (nCuts : ℕ) (c : Counters) : Option (List (ℚ × ℚ × ℚ × ℚ)) :=
  (List.range nCuts).mapM (reportLine c)

/-- A one-dimensional fixed-bin histogram: the contents of bins
`1..nbins` and their lower edges, as `GetBinContent`/`GetBinLowEdge`
expose them. -/
structure Hist where
  contents : List ℚ
  lowEdges : List ℚ
deriving DecidableEq

/-- `GetNbinsX()`. -/
def Hist.nbins (h : Hist) : ℕ := h.contents.length

/-- `Integral()`: the sum of the contents of bins `1..nbins`. -/
def Hist.integral (h : Hist) : ℚ := h.contents.sum

/-- `GetBinContent(i)` for `i ≥ 1` (0 outside the stored range). -/
def Hist.content (h : Hist) (i : ℕ) : ℚ := h.contents.getD (i - 1) 0

/-- `GetBinLowEdge(i)` for `i ≥ 1` (0 outside the stored range). -/
def Hist.lowEdge (h : Hist) (i : ℕ) : ℚ := h.lowEdges.getD (i - 1) 0

/-- The loop of `drawEffVsCutCurve` (lines 286-293), run for `m`
iterations (the source runs it for `i in xrange(2, nbins)`, i.e.
`nbins - 2` iterations; iteration `m` handles `i = 2 + m`): returns
`(discrV, effV, integral)` where `integral` is the running (mutated)
variable of the source. -/
def effLoopAux (h : Hist) : ℕ → List ℚ × List ℚ × ℚ
  | 0 => ([h.lowEdge 1], [h.integral], h.integral)
  | m + 1 =>
    let r := effLoopAux h m
    let i := 2 + m
    let integ := r.2.2 - h.content (i - 1)
    (r.1 ++ [h.lowEdge i], r.2.1 ++ [integ], integ)

/-- The divisor used at line 301: the supplied `total` when non-zero,
otherwise the final value of the mutated `integral` variable (note: not
the histogram's full integral). -/
def effDivisor (h : Hist) (total : ℚ) : ℚ :=
  if total ≠ 0 then total else (effLoopAux h (h.nbins - 2)).2.2

/-- `drawEffVsCutCurve` (lines 281-303): build `discrV`/`effV`, then
divide every efficiency by `effDivisor`; a zero divisor raises
ZeroDivisionError in the source, embedded as `none`.  The returned graph
is the point list `zip discrV effV`. -/
def drawEffVsCutCurve (h : Hist) (total : ℚ) : Option (List (ℚ × ℚ)) :=
  if effDivisor h total = 0 then none
  else
    some ((effLoopAux h (h.nbins - 2)).1.zip
      ((effLoopAux h (h.nbins - 2)).2.1.map (fun x => x / effDivisor h total)))

/-- `drawROCfromEffVsCutCurves` (lines 332-360): check the two point
counts, exiting with both counts on a mismatch; otherwise collect the
y-values of both graphs and build `TGraph(n, sigEff, bkgEff)`, whose
point `i` is `(sigEff[i], bkgEff[i])`. -/
def drawROCfromEffVsCutCurves (sigGraph bkgGraph : List (ℚ × ℚ)) :
    Except (ℕ × ℕ) (List (ℚ × ℚ)) :=
  let nPoints := sigGraph.length
  if nPoints ≠ bkgGraph.length then Except.error (nPoints, bkgGraph.length)
  else Except.ok ((sigGraph.map Prod.snd).zip (bkgGraph.map Prod.snd))

/-- The cuts-only default configuration: no cut selector, no MVA selector
(`trackCut=None`, `trackMVA=None`), hence a single implicit threshold. -/
def cfgPlain : Config := ⟨false, none⟩

/-- A b jet with two tracks whose significances come in increasing order
(track 0 has IPsig 1, track 1 has IPsig 5); both pass trivially under
`cfgPlain`. -/
def jetC1 : JetIn := ⟨10, 5, [⟨0, 1, true, 0⟩, ⟨1, 5, true, 0⟩]⟩

/-- A light jet (flavour 1, genpt 10) with one track, so that the full
pass ends with zero b-category tracks. -/
def jetC4 : JetIn := ⟨10, 1, [⟨0, 2, true, 0⟩]⟩

/-- A b jet with a single track of significance 3. -/
def jetC5 : JetIn := ⟨10, 5, [⟨0, 3, true, 0⟩]⟩

/-- A c jet with three tracks of significances 4, 2, 7. -/
def jetC10 : JetIn := ⟨10, 4, [⟨0, 4, true, 0⟩, ⟨1, 2, true, 0⟩, ⟨2, 7, true, 0⟩]⟩

/-- A four-bin histogram with unit contents, integral 4. -/
def histC3 : Hist := ⟨[1, 1, 1, 1], [0, 1, 2, 3]⟩

/-- A one-bin histogram. -/
def histC7 : Hist := ⟨[5], [0]⟩

/-- A three-bin histogram for the curve-length witness. -/
def histC7w : Hist := ⟨[1, 2, 3], [0, 1, 2]⟩

/-- A four-bin histogram with non-negative contents for the
monotonicity witness. -/
def histC8w : Hist := ⟨[2, 1, 1, 0], [0, 1, 2, 3]⟩

/-- The curve `drawEffVsCutCurve histC8w 4` evaluates to. -/
def ptsC8w : List (ℚ × ℚ) := [(0, 1), (1, 1/2), (2, 1/4)]

/-- The signal efficiency curve of the spec's ROC example (efficiencies
0.9, 0.5, 0.1). -/
def sigEx : List (ℚ × ℚ) := [(0, 9/10), (1, 1/2), (2, 1/10)]

/-- The background efficiency curve of the spec's ROC example
(efficiencies 0.8, 0.3, 0.05). -/
def bkgEx : List (ℚ × ℚ) := [(0, 4/5), (1, 3/10), (2, 1/20)]

/-- A four-point background curve, mismatching the three-point signal. -/
def bkgEx4 : List (ℚ × ℚ) := bkgEx ++ [(3, 0)]

/-- What the code actually returns on the ROC example: signal
efficiency first in each pair. -/
def rocEx : List (ℚ × ℚ) := [(9/10, 4/5), (1/2, 3/10), (1/10, 1/20)]

/-- The record emitted for `jetC5` under `cfgPlain`. -/
def recC5 : OutVecs := ⟨[1], [3], [sentinel], [sentinel]⟩

/-- The record emitted for `jetC10` under `cfgPlain`. -/
def recC10 : OutVecs := ⟨[3], [4], [2], [7]⟩

/-! Helper lemmas about the embedded operations. -/

theorem getD_map {α β : Type _} (f : α → β) (l : List α) (i : ℕ) (d : β) (d' : α)
    (hi : i < l.length) : (l.map f).getD i d = f (l.getD i d') := by
  rw [List.getD_eq_getD_get?, List.getD_eq_getD_get?, List.get?_map]
  cases hl : l.get? i with
  | none => exact absurd (List.get?_eq_none.mp hl) (by omega)
  | some a => simp [hl]

theorem zip_getD {α β : Type _} (da : α) (db : β) :
    ∀ (a : List α) (b : List β) (i : ℕ), i < a.length → i < b.length →
      (a.zip b).getD i (da, db) = (a.getD i da, b.getD i db) := by
  intro a
  induction a with
  | nil => intro b i h1 _; simp at h1
  | cons x xs ih =>
    intro b i h1 h2
    cases b with
    | nil => simp at h2
    | cons y ys =>
      cases i with
      | zero => simp [List.zip_cons_cons]
      | succ n =>
        simp only [List.zip_cons_cons, List.getD_cons_succ]
        exact ih ys n (by simpa using h1) (by simpa using h2)

theorem getD_range_map {α : Type _} (f : ℕ → α) (d : α) (n k : ℕ) (hk : k < n) :
    ((List.range n).map f).getD k d = f k := by
  rw [List.getD_eq_getD_get?, List.get?_map, List.get?_range hk]
  rfl

theorem sum_take_getD (l : List ℚ) : ∀ i : ℕ,
    (l.take (i + 1)).sum = (l.take i).sum + l.getD i 0 := by
  induction l with
  | nil => intro i; simp
  | cons a t ih =>
    intro i
    cases i with
    | zero => simp
    | succ n =>
      simp only [List.take_succ_cons, List.sum_cons, List.getD_cons_succ, ih n]
      ring

theorem foldl_length_inv {α β : Type _} (g : List α → β → List α)
    (hg : ∀ s x, (g s x).length = s.length) :
    ∀ (l : List β) (s : List α), (l.foldl g s).length = s.length := by
  intro l
  induction l with
  | nil => intro s; rfl
  | cons x xs ih => intro s; rw [List.foldl_cons, ih, hg]

theorem any_id_replicate (c : Bool) : ∀ n : ℕ,
    (List.replicate n c).any id = (decide (0 < n) && c) := by
  intro n
  cases n with
  | zero => simp
  | succ m => cases c <;> simp [List.replicate_succ, List.any_cons]

theorem zipWith_replicate_left_map {α β γ : Type _} (f : α → β → γ) (a : α) :
    ∀ l : List β, List.zipWith f (List.replicate l.length a) l = l.map (f a) := by
  intro l
  induction l with
  | nil => rfl
  | cons x xs ih => simp [List.replicate_succ, ih]

theorem emitThreshold_spec (v : OutVecs) (i : ℕ) (sel : List (ℕ × ℚ)) :
    (emitThreshold v i sel).nseltracks
        = v.nseltracks ++ (if sel.isEmpty then [] else [(sel.length : ℚ)]) ∧
      (emitThreshold v i sel).ip
        = v.ip ++ (if sel.isEmpty then [] else [(sel.headD (0, 0)).2]) ∧
      (emitThreshold v i sel).tche.length
        = v.tche.length + (if sel.isEmpty then 0 else 1) ∧
      (emitThreshold v i sel).tchp.length
        = v.tchp.length + (if sel.isEmpty then 0 else 1) := by
  unfold emitThreshold
  by_cases h : sel.isEmpty
  · simp [h]
  · by_cases h1 : 1 < sel.length <;> by_cases h2 : 2 < sel.length <;>
      simp [h, h1, h2, List.length_set]

theorem emitFold (f : ℕ → List (ℕ × ℚ)) :
    ∀ (n : ℕ) (v : OutVecs),
      ((List.range n).foldl (fun w i => emitThreshold w i (f i)) v).nseltracks
          = v.nseltracks
            ++ ((List.range n).filter (fun i => !(f i).isEmpty)).map
                (fun i => ((f i).length : ℚ)) ∧
        ((List.range n).foldl (fun w i => emitThreshold w i (f i)) v).ip
          = v.ip
            ++ ((List.range n).filter (fun i => !(f i).isEmpty)).map
                (fun i => ((f i).headD (0, 0)).2) ∧
        ((List.range n).foldl (fun w i => emitThreshold w i (f i)) v).tche.length
          = v.tche.length + ((List.range n).filter (fun i => !(f i).isEmpty)).length ∧
        ((List.range n).foldl (fun w i => emitThreshold w i (f i)) v).tchp.length
          = v.tchp.length + ((List.range n).filter (fun i => !(f i).isEmpty)).length := by
  intro n
  induction n with
  | zero => intro v; simp
  | succ m ih =>
    intro v
    obtain ⟨ih1, ih2, ih3, ih4⟩ := ih v
    obtain ⟨e1, e2, e3, e4⟩ :=
      emitThreshold_spec ((List.range m).foldl (fun w i => emitThreshold w i (f i)) v) m (f m)
    rw [List.range_succ, List.foldl_append, List.filter_append]
    by_cases h : (f m).isEmpty <;>
      simp [List.foldl_cons, List.foldl_nil, e1, e2, e3, e4, ih1, ih2, ih3, ih4, h,
        List.filter_cons, List.filter_nil] <;> omega

theorem rangeFilterMap {α : Type _} (g : List (ℕ × ℚ) → α) :
    ∀ sel : List (List (ℕ × ℚ)),
      ((List.range sel.length).filter (fun i => !(sel.getD i []).isEmpty)).map
          (fun i => g (sel.getD i []))
        = (sel.filter (fun l => !l.isEmpty)).map g := by
  intro sel
  induction sel with
  | nil => simp
  | cons a s ih =>
    have hp : ((fun i => !((a :: s).getD i []).isEmpty) ∘ Nat.succ)
        = fun i => !(s.getD i []).isEmpty := by
      funext i
      simp [Function.comp, List.getD_cons_succ]
    have hq : ((fun i => g ((a :: s).getD i [])) ∘ Nat.succ)
        = fun i => g (s.getD i []) := by
      funext i
      simp [Function.comp, List.getD_cons_succ]
    cases ha : a.isEmpty
    · rw [List.length_cons, List.range_succ_eq_map, List.filter_cons]
      simp only [List.getD_cons_zero, ha, Bool.not_false, if_true, List.map_cons,
        List.getD_cons_zero]
      rw [List.filter_map, List.map_map, hp, hq, ih, List.filter_cons]
      simp [ha]
    · rw [List.length_cons, List.range_succ_eq_map, List.filter_cons]
      simp only [List.getD_cons_zero, ha, Bool.not_true, Bool.false_eq_true, if_false]
      rw [List.filter_map, List.map_map, hp, hq, ih, List.filter_cons]
      simp [ha]

theorem buildSelTracks_length (cfg : Config) (tracks : List TrackIn) :
    (buildSelTracks cfg tracks).length = nCutsOf cfg := by
  unfold buildSelTracks
  rw [foldl_length_inv]
  · exact List.length_replicate _ _
  · intro s t
    by_cases he : (selectTrack cfg t).earlyExit
    · simp [he]
    · simp only [he, Bool.false_eq_true, if_false]
      apply foldl_length_inv
      intro s' i
      split <;> simp [List.length_set]

theorem jetStep_state (cfg : Config) (v : OutVecs) (j : JetIn) :
    (jetStep cfg v j).1 = OutVecs.empty := rfl

theorem runRecords_aux (cfg : Config) :
    ∀ (jets : List JetIn) (recs : List OutVecs),
      (jets.foldl
          (fun (st : OutVecs × List OutVecs) j =>
            ((jetStep cfg st.1 j).1, st.2 ++ (jetStep cfg st.1 j).2.toList))
          (OutVecs.empty, recs)).2
        = recs ++ jets.filterMap (fun j => (jetStep cfg OutVecs.empty j).2) := by
  intro jets
  induction jets with
  | nil => intro recs; simp
  | cons j rest ih =>
    intro recs
    rw [List.foldl_cons, jetStep_state, ih, List.filterMap_cons]
    cases (jetStep cfg OutVecs.empty j).2 <;> simp

theorem runRecords_eq (cfg : Config) (jets : List JetIn) :
    runRecords cfg jets = jets.filterMap (fun j => (jetStep cfg OutVecs.empty j).2) := by
  unfold runRecords
  rw [runRecords_aux]
  simp

theorem jetStep_record (cfg : Config) (j : JetIn) (r : OutVecs)
    (hr : (jetStep cfg OutVecs.empty j).2 = some r) :
    r.nseltracks
        = ((buildSelTracks cfg j.tracks).filter (fun l => !l.isEmpty)).map
            (fun l => (l.length : ℚ)) ∧
      r.ip
        = ((buildSelTracks cfg j.tracks).filter (fun l => !l.isEmpty)).map
            (fun l => (l.headD (0, 0)).2) ∧
      r.tche.length = countNonEmpty (buildSelTracks cfg j.tracks) ∧
      r.tchp.length = countNonEmpty (buildSelTracks cfg j.tracks) := by
  unfold jetStep at hr
  by_cases ha : (buildSelTracks cfg j.tracks).any (fun l => !l.isEmpty)
  · simp only [ha, if_true] at hr
    have hx := Option.some.inj hr
    subst hx
    rw [← buildSelTracks_length cfg j.tracks]
    obtain ⟨e1, e2, e3, e4⟩ :=
      emitFold (fun i => (buildSelTracks cfg j.tracks).getD i [])
        (buildSelTracks cfg j.tracks).length OutVecs.empty
    have r1 := rangeFilterMap (fun l => ((l.length : ℚ))) (buildSelTracks cfg j.tracks)
    have r2 := rangeFilterMap (fun l => (l.headD ((0 : ℕ), (0 : ℚ))).2)
      (buildSelTracks cfg j.tracks)
    have hlen := congrArg List.length r1
    simp only [List.length_map] at hlen
    refine ⟨?_, ?_, ?_, ?_⟩
    · rw [e1]
      simpa [OutVecs.empty] using r1
    · rw [e2]
      simpa [OutVecs.empty] using r2
    · rw [e3]
      simpa [OutVecs.empty, countNonEmpty] using hlen
    · rw [e4]
      simpa [OutVecs.empty, countNonEmpty] using hlen
  · simp [ha] at hr

theorem jetStep_none (cfg : Config) (j : JetIn)
    (ha : (buildSelTracks cfg j.tracks).all (fun l => l.isEmpty)) :
    (jetStep cfg OutVecs.empty j).2 = none := by
  unfold jetStep
  have : (buildSelTracks cfg j.tracks).any (fun l => !l.isEmpty) = false := by
    rw [List.any_eq_false]
    intro l hl
    simp [List.all_eq_true.mp ha l hl]
  simp [this]

theorem effLoopAux_spec (h : Hist) : ∀ m : ℕ,
    effLoopAux h m
      = (h.lowEdge 1 :: (List.range' 2 m).map h.lowEdge,
         (List.range (m + 1)).map (fun k => h.integral - (h.contents.take k).sum),
         h.integral - (h.contents.take m).sum) := by
  intro m
  induction m with
  | zero => simp [effLoopAux, List.range_succ]
  | succ m ih =>
    have hstep : h.integral - (h.contents.take m).sum - h.content (2 + m - 1)
        = h.integral - (h.contents.take (m + 1)).sum := by
      rw [sum_take_getD]
      unfold Hist.content
      have h2 : 2 + m - 1 - 1 = m := by omega
      rw [h2]
      ring
    rw [effLoopAux, ih]
    simp only [Prod.mk.injEq]
    refine ⟨?_, ?_, hstep⟩
    · conv_rhs => rw [List.range'_concat]
      simp [one_mul]
    · conv_rhs => rw [List.range_succ]
      rw [List.map_append, hstep]
      simp

theorem getD_replicate_of_lt {α : Type _} (c d : α) :
    ∀ (n i : ℕ), i < n → (List.replicate n c).getD i d = c := by
  intro n
  induction n with
  | zero => intro i hi; omega
  | succ m ih =>
    intro i hi
    cases i with
    | zero => simp [List.replicate_succ]
    | succ k => simpa [List.replicate_succ] using ih k (by omega)

theorem selectTrack_spec (cfg : Config) (t : TrackIn) :
    (selectTrack cfg t).cutEvals = (if cfg.cutEnabled then 1 else 0) ∧
      (selectTrack cfg t).mvaEvals
        = (if cfg.mvaCuts.isSome = true ∧ (!cfg.cutEnabled || t.cutVal) = true
              ∧ 0 < nCutsOf cfg
           then 1 else 0) ∧
      ∀ i, i < nCutsOf cfg →
        (selectTrack cfg t).keep.getD i false
          = ((!cfg.cutEnabled || t.cutVal) &&
              (match cfg.mvaCuts with
               | none => true
               | some cuts => decide (cuts.getD i 0 < t.score))) := by
  have hkeep1 : keep1Of cfg t
      = List.replicate (nCutsOf cfg) (!cfg.cutEnabled || t.cutVal) := by
    unfold keep1Of
    cases h : cfg.cutEnabled <;> simp [h, List.map_replicate]
  have hany : (keep1Of cfg t).any id
      = (decide (0 < nCutsOf cfg) && (!cfg.cutEnabled || t.cutVal)) := by
    rw [hkeep1, any_id_replicate]
  obtain ⟨ce, mc⟩ := cfg
  cases mc with
  | none =>
    unfold selectTrack
    rw [hany, hkeep1]
    refine ⟨?_, ?_, ?_⟩
    · split <;> simp [cutEvalsOf]
    · split <;> simp
    · intro i hi
      have hg := getD_replicate_of_lt (!(Config.mk ce none).cutEnabled || t.cutVal) false
        (nCutsOf ⟨ce, none⟩) i hi
      split <;> simp_all
  | some cuts =>
    unfold selectTrack
    cases hc : (decide (0 < nCutsOf ⟨ce, some cuts⟩) && (!(Config.mk ce (some cuts)).cutEnabled || t.cutVal))
    · have hcc : ¬(0 < nCutsOf ⟨ce, some cuts⟩)
          ∨ (!(Config.mk ce (some cuts)).cutEnabled || t.cutVal) = false := by
        rcases Bool.and_eq_false_iff.mp hc with h | h
        · left; simpa using h
        · right; exact h
      rw [hany, hc]
      simp only [if_true]
      refine ⟨by simp [cutEvalsOf], ?_, ?_⟩
      · rcases hcc with h | h <;> simp [h]
      · intro i hi
        rcases hcc with h | h
        · omega
        · rw [hkeep1, h, getD_replicate_of_lt _ _ _ _ hi]
          simp
    · have h0 : 0 < nCutsOf ⟨ce, some cuts⟩ := by
        rcases Bool.and_eq_true_iff.mp hc with ⟨h, _⟩
        simpa using h
      have hcv : (!(Config.mk ce (some cuts)).cutEnabled || t.cutVal) = true :=
        (Bool.and_eq_true_iff.mp hc).2
      have hn : nCutsOf ⟨ce, some cuts⟩ = cuts.length := rfl
      have hzip : keep2Of ⟨ce, some cuts⟩ t cuts
          = cuts.map (fun c =>
              (!(Config.mk ce (some cuts)).cutEnabled || t.cutVal) && decide (c < t.score)) := by
        unfold keep2Of
        rw [hkeep1, hn]
        exact zipWith_replicate_left_map _ _ cuts
      rw [hany, hc]
      simp only [Bool.true_eq_false, if_false]
      refine ⟨?_, ?_, ?_⟩
      · split <;> simp [cutEvalsOf]
      · split <;> simp [hcv, h0]
      · intro i hi
        have hmap :
            (cuts.map (fun c =>
                (!(Config.mk ce (some cuts)).cutEnabled || t.cutVal)
                  && decide (c < t.score))).getD i false
              = ((!(Config.mk ce (some cuts)).cutEnabled || t.cutVal)
                  && decide (cuts.getD i 0 < t.score)) :=
          getD_map _ cuts i false 0 (by rw [hn] at hi; exact hi)
        split <;> simpa [hzip, hcv] using hmap

theorem reportLine_none (c : Counters) (i : ℕ)
    (hz : c.totB = 0 ∨ c.totC = 0 ∨ c.totLight = 0 ∨ c.totPU = 0) :
    reportLine c i = none := by
  unfold reportLine effPercent
  rcases hz with h | h | h | h <;>
    by_cases hb : c.totB = 0 <;>
    by_cases hc2 : c.totC = 0 <;>
    by_cases hl : c.totLight = 0 <;>
    simp_all

theorem effLoop_lengths (h : Hist) (m : ℕ) :
    (effLoopAux h m).1.length = m + 1 ∧ (effLoopAux h m).2.1.length = m + 1 := by
  rw [effLoopAux_spec]
  simp [List.length_range']

theorem drawEffVsCutCurve_some (h : Hist) (total : ℚ) (pts : List (ℚ × ℚ))
    (hres : drawEffVsCutCurve h total = some pts) :
    effDivisor h total ≠ 0 ∧
      pts = (effLoopAux h (h.nbins - 2)).1.zip
        ((effLoopAux h (h.nbins - 2)).2.1.map (fun x => x / effDivisor h total)) := by
  unfold drawEffVsCutCurve at hres
  by_cases hd : effDivisor h total = 0
  · simp [hd] at hres
  · simp only [hd, if_false] at hres
    exact ⟨hd, (Option.some.inj hres).symm⟩

theorem drawEff_length (h : Hist) (total : ℚ) (pts : List (ℚ × ℚ))
    (hres : drawEffVsCutCurve h total = some pts) :
    pts.length = h.nbins - 2 + 1 := by
  obtain ⟨_, hpts⟩ := drawEffVsCutCurve_some h total pts hres
  subst hpts
  rw [List.length_zip, List.length_map]
  obtain ⟨l1, l2⟩ := effLoop_lengths h (h.nbins - 2)
  simp [l1, l2]

theorem drawEff_getD (h : Hist) (total : ℚ) (pts : List (ℚ × ℚ))
    (hres : drawEffVsCutCurve h total = some pts) :
    ∀ k, k < pts.length →
      (pts.getD k (0, 0)).2
        = (h.integral - (h.contents.take k).sum) / effDivisor h total := by
  intro k hk
  have hlen := drawEff_length h total pts hres
  obtain ⟨_, hpts⟩ := drawEffVsCutCurve_some h total pts hres
  obtain ⟨l1, l2⟩ := effLoop_lengths h (h.nbins - 2)
  have hk1 : k < (effLoopAux h (h.nbins - 2)).1.length := by omega
  have hk2 : k <
      ((effLoopAux h (h.nbins - 2)).2.1.map (fun x => x / effDivisor h total)).length := by
    rw [List.length_map]
    omega
  rw [hpts, zip_getD 0 0 _ _ k hk1 hk2]
  have hmap : (effLoopAux h (h.nbins - 2)).2.1.map (fun x => x / effDivisor h total)
      = (List.range (h.nbins - 2 + 1)).map
          (fun j => (h.integral - (h.contents.take j).sum) / effDivisor h total) := by
    rw [effLoopAux_spec]
    rw [List.map_map]
    rfl
  show ((effLoopAux h (h.nbins - 2)).2.1.map fun x => x / effDivisor h total).getD k 0 = _
  rw [hmap]
  exact getD_range_map _ 0 _ k (by omega)

theorem drawEff_fst (h : Hist) (total : ℚ) (pts : List (ℚ × ℚ))
    (hres : drawEffVsCutCurve h total = some pts) :
    pts.map Prod.fst = h.lowEdge 1 :: (List.range' 2 (h.nbins - 2)).map h.lowEdge := by
  obtain ⟨_, hpts⟩ := drawEffVsCutCurve_some h total pts hres
  subst hpts
  obtain ⟨l1, l2⟩ := effLoop_lengths h (h.nbins - 2)
  rw [List.map_fst_zip _ _ (by rw [List.length_map]; omega)]
  rw [effLoopAux_spec]

theorem effDivisor_pos (h : Hist) (total : ℚ) (hc : ∀ c ∈ h.contents, 0 ≤ c)
    (ht : 0 ≤ total) (hd : effDivisor h total ≠ 0) : 0 < effDivisor h total := by
  unfold effDivisor at hd ⊢
  by_cases h0 : total ≠ 0
  · rw [if_pos h0] at hd ⊢
    exact lt_of_le_of_ne ht (fun he => h0 he.symm)
  · rw [if_neg h0] at hd ⊢
    rw [effLoopAux_spec] at hd ⊢
    dsimp only at hd ⊢
    have hdrop : h.integral - (h.contents.take (h.nbins - 2)).sum
        = (h.contents.drop (h.nbins - 2)).sum := by
      have hs := List.sum_take_add_sum_drop h.contents (h.nbins - 2)
      unfold Hist.integral
      linarith
    have hnn : 0 ≤ (h.contents.drop (h.nbins - 2)).sum :=
      List.sum_nonneg (fun x hx => hc x (List.mem_of_mem_drop hx))
    rw [hdrop] at hd ⊢
    exact lt_of_le_of_ne hnn (fun he => hd he.symm)

theorem content_nonneg (h : Hist) (hc : ∀ c ∈ h.contents, 0 ≤ c) (i : ℕ) :
    0 ≤ h.content i := by
  unfold Hist.content
  by_cases hi : i - 1 < h.contents.length
  · rw [List.getD_eq_getD_get?]
    cases hl : h.contents.get? (i - 1) with
    | none => exact absurd (List.get?_eq_none.mp hl) (by omega)
    | some a => simpa using hc a (List.get?_mem hl)
  · rw [List.getD_eq_default _ _ (by omega)]

/-! The claims. -/

/-- Claim C1, code bug.  The claim asks that, per threshold with a
non-empty selected-track list, the emitted `Jet_Ip` be the maximum
accepted impact-parameter significance and `TCHE`/`TCHP` the 2nd/3rd
largest with sentinel fall-backs.  Line 184 of the source calls
`sorted(...)` but discards its result — contradicting the adjacent
comment and the docstring — so the list stays in track-index order: for
`jetC1`, whose two accepted tracks have significances 1 then 5, the
emitted record is `(nsel, Ip, TCHE, TCHP) = ([2], [1], [5], [sentinel])`,
i.e. `Jet_Ip` is 1 although the maximum accepted significance is 5 and
`TCHE` is 5 although the 2nd-largest is 1. -/
theorem trackCounting_C1_sortDiscarded :
    (jetStep cfgPlain OutVecs.empty jetC1).2 = some ⟨[2], [1], [5], [sentinel]⟩ ∧
      (((buildSelTracks cfgPlain jetC1.tracks).getD 0 []).map Prod.snd).maximum
        = some 5 := by
  decide

/-- Claim C2, counterexample.  On the spec's own example the ROC
builder does not return `[(0.8, 0.9), (0.3, 0.5), (0.05, 0.1)]`: the
source passes `sigEff` as the x array and `bkgEff` as the y array of
the output graph, so signal efficiency comes first in every point. -/
theorem trackCounting_C2_cex :
    drawROCfromEffVsCutCurves sigEx bkgEx
      ≠ Except.ok [(4/5, 9/10), (3/10, 1/2), (1/20, 1/10)] := by
  norm_num [drawROCfromEffVsCutCurves, sigEx, bkgEx]

/-- Claim C2, amended: for input curves of equal point count the
builder returns a curve of that count whose i-th point is (signal
curve's i-th efficiency value, background curve's i-th efficiency
value) — the transpose of the claimed order. -/
theorem trackCounting_C2_amended (sig bkg pts : List (ℚ × ℚ))
    (hres : drawROCfromEffVsCutCurves sig bkg = Except.ok pts) :
    pts.length = sig.length ∧
      ∀ i, i < pts.length →
        pts.getD i (0, 0) = ((sig.getD i (0, 0)).2, (bkg.getD i (0, 0)).2) := by
  unfold drawROCfromEffVsCutCurves at hres
  by_cases hlen : sig.length = bkg.length
  · rw [if_neg (by omega)] at hres
    have hpts := (Except.ok.inj hres).symm
    subst hpts
    have hzlen : ((sig.map Prod.snd).zip (bkg.map Prod.snd)).length = sig.length := by
      rw [List.length_zip, List.length_map, List.length_map, hlen]
      omega
    refine ⟨hzlen, ?_⟩
    intro i hi
    rw [hzlen] at hi
    rw [zip_getD 0 0 _ _ i (by rw [List.length_map]; omega)
      (by rw [List.length_map]; omega)]
    rw [getD_map Prod.snd sig i 0 (0, 0) (by omega),
      getD_map Prod.snd bkg i 0 (0, 0) (by omega)]
  · rw [if_pos hlen] at hres
    exact absurd hres (by simp)

/-- Claim C2, witness: the amended theorem on the spec's example —
`rocEx` is what the builder returns, and its first point is (signal
efficiency 0.9, background efficiency 0.8). -/
theorem trackCounting_C2_amended_witness :
    drawROCfromEffVsCutCurves sigEx bkgEx = Except.ok rocEx ∧
      rocEx.getD 0 (0, 0) = ((sigEx.getD 0 (0, 0)).2, (bkgEx.getD 0 (0, 0)).2) := by
  have hres : drawROCfromEffVsCutCurves sigEx bkgEx = Except.ok rocEx := by
    norm_num [drawROCfromEffVsCutCurves, sigEx, bkgEx, rocEx]
  exact ⟨hres, (trackCounting_C2_amended sigEx bkgEx rocEx hres).2 0 (by decide)⟩

/-- Claim C3, code bug.  When `total == 0` the source divides every
efficiency value by the final value of the mutated `integral` variable
(what is left after subtracting bins 1 through nbins−2, i.e. the
contents of the last two bins) instead of the histogram's full
integral, contradicting its own docstring: on a four-bin histogram with
unit contents (integral 4, tail 2) the produced efficiencies are
2, 3/2, 1 — the first value is 2, not 1. -/
theorem trackCounting_C3_tailNormalization :
    Hist.integral histC3 = 4 ∧
      drawEffVsCutCurve histC3 0 = some [(0, 2), (1, 3/2), (2, 1)] := by
  constructor
  · norm_num [Hist.integral, histC3]
  · norm_num [drawEffVsCutCurve, effLoopAux, effDivisor, Hist.nbins, Hist.integral,
      Hist.content, Hist.lowEdge, histC3]

/-- Claim C4, counterexample.  A full pass over a single light jet
leaves `totB = 0`; the efficiency report then computes
`float(100*nSel)/nTot` with a zero denominator, which in Python 2
raises ZeroDivisionError (embedded as `none`): the run aborts instead
of printing an undefined/NaN value and continuing. -/
theorem trackCounting_C4_cex :
    (runCounters cfgPlain [jetC4]).totB = 0 ∧
      report 1 (runCounters cfgPlain [jetC4]) = none := by
  decide

/-- Claim C4, amended: whenever some flavor category ends the pass with
zero total tracks and at least one threshold line is printed, the
report hits a division by zero and aborts (result `none`); it does not
print NaN and continue. -/
theorem trackCounting_C4_amended (nCuts : ℕ) (c : Counters) (hn : 0 < nCuts)
    (hz : c.totB = 0 ∨ c.totC = 0 ∨ c.totLight = 0 ∨ c.totPU = 0) :
    report nCuts c = none := by
  unfold report
  obtain ⟨m, rfl⟩ : ∃ m, nCuts = m + 1 := ⟨nCuts - 1, by omega⟩
  rw [List.range_succ_eq_map, List.mapM_cons, reportLine_none c 0 hz]
  rfl

/-- Claim C4, witness: the amended theorem at the initial counters with
one threshold. -/
theorem trackCounting_C4_amended_witness :
    0 < 1 ∧ (Counters.init 1).totB = 0 ∧ report 1 (Counters.init 1) = none :=
  ⟨by decide, by decide,
    trackCounting_C4_amended 1 (Counters.init 1) (by decide) (Or.inl (by decide))⟩

/-- Claim C5, confirmed: a jet contributes one per-threshold entry
exactly for each threshold whose selected-track list is non-empty — the
emitted `Jet_nseltracks` values are the lengths of the non-empty lists
in threshold order, hence every emitted count is ≥ 1 — and a jet all of
whose per-threshold lists are empty produces no output record. -/
theorem trackCounting_C5 (cfg : Config) (j : JetIn) :
    (∀ r, (jetStep cfg OutVecs.empty j).2 = some r →
        r.nseltracks
            = ((buildSelTracks cfg j.tracks).filter (fun l => !l.isEmpty)).map
                (fun l => (l.length : ℚ)) ∧
          ∀ q ∈ r.nseltracks, 1 ≤ q) ∧
      ((buildSelTracks cfg j.tracks).all (fun l => l.isEmpty) = true →
        (jetStep cfg OutVecs.empty j).2 = none) := by
  constructor
  · intro r hr
    obtain ⟨e1, _, _, _⟩ := jetStep_record cfg j r hr
    refine ⟨e1, ?_⟩
    intro q hq
    rw [e1] at hq
    obtain ⟨l, hl, rfl⟩ := List.mem_map.mp hq
    obtain ⟨_, hne⟩ := List.mem_filter.mp hl
    have hnil : l ≠ [] := by simpa [List.isEmpty_iff] using hne
    exact Nat.one_le_cast.mpr (List.length_pos.mpr hnil)
  · exact jetStep_none cfg j

/-- Claim C5, witness: under the cuts-only configuration, the one-track
jet `jetC5` emits the record `recC5` whose `Jet_nseltracks` equals the
lengths of the non-empty selected-track lists. -/
theorem trackCounting_C5_witness :
    (jetStep cfgPlain OutVecs.empty jetC5).2 = some recC5 ∧
      recC5.nseltracks
        = ((buildSelTracks cfgPlain jetC5.tracks).filter (fun l => !l.isEmpty)).map
            (fun l => (l.length : ℚ)) := by
  have hr : (jetStep cfgPlain OutVecs.empty jetC5).2 = some recC5 := by decide
  exact ⟨hr, ((trackCounting_C5 cfgPlain jetC5).1 recC5 hr).1⟩

/-- Claim C6, counterexample.  When a cut predicate is configured and
rejects a track, the `continue` at line 152 fires before the MVA block,
so the classifier score is computed zero times for that track — not
once as the claim states. -/
theorem trackCounting_C6_cex :
    (selectTrack ⟨true, some [0]⟩ ⟨0, 0, false, 5⟩).mvaEvals ≠ 1 := by
  decide

/-- Claim C6, amended: the cut predicate is evaluated exactly once per
track when configured and its single result is ANDed uniformly into
every threshold's decision; the classifier score is computed exactly
once when a classifier is configured, the cut (if any) passed, and at
least one threshold exists — and not at all otherwise; the track is
accepted under threshold i iff the cut (if configured) passed and the
score is strictly greater than cut value i. -/
theorem trackCounting_C6_amended (cfg : Config) (t : TrackIn) :
    (selectTrack cfg t).cutEvals = (if cfg.cutEnabled then 1 else 0) ∧
      (selectTrack cfg t).mvaEvals
        = (if cfg.mvaCuts.isSome = true ∧ (!cfg.cutEnabled || t.cutVal) = true
              ∧ 0 < nCutsOf cfg
           then 1 else 0) ∧
      ∀ i, i < nCutsOf cfg →
        (selectTrack cfg t).keep.getD i false
          = ((!cfg.cutEnabled || t.cutVal) &&
              (match cfg.mvaCuts with
               | none => true
               | some cuts => decide (cuts.getD i 0 < t.score))) :=
  selectTrack_spec cfg t

/-- Claim C6, witness: with a passing cut and cut values `[0, 2]`, a
track of score 1 evaluates the cut once, the MVA once, and is kept at
threshold 0. -/
theorem trackCounting_C6_amended_witness :
    0 < nCutsOf ⟨true, some [0, 2]⟩ ∧
      (selectTrack ⟨true, some [0, 2]⟩ ⟨0, 0, true, 1⟩).cutEvals = 1 ∧
      (selectTrack ⟨true, some [0, 2]⟩ ⟨0, 0, true, 1⟩).mvaEvals = 1 ∧
      (selectTrack ⟨true, some [0, 2]⟩ ⟨0, 0, true, 1⟩).keep.getD 0 false = true := by
  refine ⟨by decide, ?_, ?_, ?_⟩
  · exact ((trackCounting_C6_amended ⟨true, some [0, 2]⟩ ⟨0, 0, true, 1⟩).1).trans
      (by decide)
  · exact ((trackCounting_C6_amended ⟨true, some [0, 2]⟩ ⟨0, 0, true, 1⟩).2.1).trans
      (by norm_num [nCutsOf])
  · exact (((trackCounting_C6_amended ⟨true, some [0, 2]⟩ ⟨0, 0, true, 1⟩).2.2)
      0 (by decide)).trans (by decide)

/-- Claim C7, counterexample.  On a one-bin histogram the produced
curve has one point — the lower edge of bin 1 — not
bin count − 1 = 0 points, so the claim's universal form fails at
B = 1. -/
theorem trackCounting_C7_cex :
    drawEffVsCutCurve histC7 0 = some [(0, 1)] ∧ Hist.nbins histC7 - 1 = 0 := by
  constructor
  · norm_num [drawEffVsCutCurve, effLoopAux, effDivisor, Hist.nbins, Hist.integral,
      Hist.content, Hist.lowEdge, histC7]
  · decide

/-- Claim C7, amended: for every histogram with at least two bins, the
curve has exactly bin count − 1 points whose cut values are the lower
edges of bins 1 through bin count − 1 (the final bin is omitted); a
one-bin histogram instead yields a single point. -/
theorem trackCounting_C7_amended (h : Hist) (total : ℚ) (pts : List (ℚ × ℚ))
    (hb : 2 ≤ h.nbins) (hres : drawEffVsCutCurve h total = some pts) :
    pts.length = h.nbins - 1 ∧
      pts.map Prod.fst = (List.range' 1 (h.nbins - 1)).map h.lowEdge := by
  have hlen := drawEff_length h total pts hres
  refine ⟨by omega, ?_⟩
  rw [drawEff_fst h total pts hres]
  obtain ⟨m, hm⟩ : ∃ m, h.nbins - 1 = m + 1 := ⟨h.nbins - 2, by omega⟩
  have hm2 : h.nbins - 2 = m := by omega
  rw [hm, hm2, List.range'_succ]
  norm_num

/-- Claim C7, witness: the amended theorem on the three-bin histogram
`histC7w`, whose curve has 3 − 1 = 2 points. -/
theorem trackCounting_C7_amended_witness :
    2 ≤ Hist.nbins histC7w ∧
      drawEffVsCutCurve histC7w 0 = some [(0, 6/5), (1, 1)] ∧
      ([((0 : ℚ), (6 : ℚ)/5), (1, 1)] : List (ℚ × ℚ)).length = Hist.nbins histC7w - 1 := by
  have hres : drawEffVsCutCurve histC7w 0 = some [(0, 6/5), (1, 1)] := by
    norm_num [drawEffVsCutCurve, effLoopAux, effDivisor, Hist.nbins, Hist.integral,
      Hist.content, Hist.lowEdge, histC7w]
  exact ⟨by decide, hres,
    (trackCounting_C7_amended histC7w 0 _ (by decide) hres).1⟩

/-- Claim C8, confirmed: with non-negative bin contents (and a
non-negative supplied total — the caller passes a category's entry
count), each produced efficiency value equals the previous one minus
the normalized content of the immediately preceding bin, a
non-negative quantity, so the efficiency sequence is monotonically
non-increasing in the cut-value index. -/
theorem trackCounting_C8 (h : Hist) (total : ℚ) (pts : List (ℚ × ℚ))
    (hc : ∀ c ∈ h.contents, 0 ≤ c) (ht : 0 ≤ total)
    (hres : drawEffVsCutCurve h total = some pts) :
    ∀ k, k + 1 < pts.length →
      (pts.getD (k + 1) (0, 0)).2
          = (pts.getD k (0, 0)).2 - h.content (k + 1) / effDivisor h total ∧
        (pts.getD (k + 1) (0, 0)).2 ≤ (pts.getD k (0, 0)).2 := by
  intro k hk
  have e1 := drawEff_getD h total pts hres k (by omega)
  have e2 := drawEff_getD h total pts hres (k + 1) hk
  have hd := (drawEffVsCutCurve_some h total pts hres).1
  have hpos := effDivisor_pos h total hc ht hd
  have hcontent : h.content (k + 1) = h.contents.getD k 0 := rfl
  have hrec : (h.contents.take (k + 1)).sum
      = (h.contents.take k).sum + h.contents.getD k 0 := sum_take_getD h.contents k
  have heq : (pts.getD (k + 1) (0, 0)).2
      = (pts.getD k (0, 0)).2 - h.content (k + 1) / effDivisor h total := by
    rw [e1, e2, hrec, hcontent]
    ring
  have hq : 0 ≤ h.content (k + 1) / effDivisor h total :=
    div_nonneg (content_nonneg h hc (k + 1)) (le_of_lt hpos)
  exact ⟨heq, by linarith⟩

/-- Claim C8, witness: on `histC8w` with total 4, the efficiency of
point 1 is that of point 0 minus the normalized content of bin 1, and
the sequence is non-increasing there. -/
theorem trackCounting_C8_witness :
    drawEffVsCutCurve histC8w 4 = some ptsC8w ∧
      (ptsC8w.getD 1 (0, 0)).2
          = (ptsC8w.getD 0 (0, 0)).2 - Hist.content histC8w 1 / effDivisor histC8w 4 ∧
        (ptsC8w.getD 1 (0, 0)).2 ≤ (ptsC8w.getD 0 (0, 0)).2 := by
  have hres : drawEffVsCutCurve histC8w 4 = some ptsC8w := by
    norm_num [drawEffVsCutCurve, effLoopAux, effDivisor, Hist.nbins, Hist.integral,
      Hist.content, Hist.lowEdge, histC8w, ptsC8w]
  refine ⟨hres, ?_⟩
  have hyp : ∀ c ∈ Hist.contents histC8w, (0 : ℚ) ≤ c := by
    intro c hcm
    fin_cases hcm <;> norm_num
  exact trackCounting_C8 histC8w 4 ptsC8w hyp (by norm_num) hres 0 (by decide)

/-- Claim C9, confirmed: on a point-count mismatch the ROC builder
aborts with an error carrying both counts and produces no curve; on
equal counts it always produces a curve. -/
theorem trackCounting_C9 (sig bkg : List (ℚ × ℚ)) :
    (sig.length ≠ bkg.length →
        drawROCfromEffVsCutCurves sig bkg = Except.error (sig.length, bkg.length)) ∧
      (sig.length = bkg.length →
        ∃ pts, drawROCfromEffVsCutCurves sig bkg = Except.ok pts) := by
  unfold drawROCfromEffVsCutCurves
  constructor
  · intro hne
    rw [if_pos hne]
  · intro heq
    rw [if_neg (by omega)]
    exact ⟨_, rfl⟩

/-- Claim C9, witness: curves of lengths 3 and 4 abort with the error
carrying (3, 4). -/
theorem trackCounting_C9_witness :
    sigEx.length ≠ bkgEx4.length ∧
      drawROCfromEffVsCutCurves sigEx bkgEx4 = Except.error (3, 4) := by
  have hne : sigEx.length ≠ bkgEx4.length := by decide
  have h := (trackCounting_C9 sigEx bkgEx4).1 hne
  refine ⟨hne, ?_⟩
  rw [h]
  norm_num [sigEx, bkgEx4, bkgEx]

/-- Claim C10, confirmed: the run's records are exactly those produced
per jet from freshly cleared vectors (the vectors are cleared after
every jet, so nothing carries over), and in every emitted record the
four vector fields have equal lengths, each the number of thresholds
with a non-empty selected-track list, which is between 1 and nCuts. -/
theorem trackCounting_C10 (cfg : Config) (jets : List JetIn) :
    runRecords cfg jets = jets.filterMap (fun j => (jetStep cfg OutVecs.empty j).2) ∧
      ∀ j r, (jetStep cfg OutVecs.empty j).2 = some r →
        r.nseltracks.length = countNonEmpty (buildSelTracks cfg j.tracks) ∧
          r.ip.length = countNonEmpty (buildSelTracks cfg j.tracks) ∧
          r.tche.length = countNonEmpty (buildSelTracks cfg j.tracks) ∧
          r.tchp.length = countNonEmpty (buildSelTracks cfg j.tracks) ∧
          1 ≤ countNonEmpty (buildSelTracks cfg j.tracks) ∧
          countNonEmpty (buildSelTracks cfg j.tracks) ≤ nCutsOf cfg := by
  refine ⟨runRecords_eq cfg jets, ?_⟩
  intro j r hr
  obtain ⟨e1, e2, e3, e4⟩ := jetStep_record cfg j r hr
  have hn : r.nseltracks.length = countNonEmpty (buildSelTracks cfg j.tracks) := by
    rw [e1, List.length_map]
    rfl
  have hi : r.ip.length = countNonEmpty (buildSelTracks cfg j.tracks) := by
    rw [e2, List.length_map]
    rfl
  have hposn : 1 ≤ countNonEmpty (buildSelTracks cfg j.tracks) := by
    by_contra hzero
    have h0 : countNonEmpty (buildSelTracks cfg j.tracks) = 0 := by omega
    have hall : (buildSelTracks cfg j.tracks).all (fun l => l.isEmpty) = true := by
      rw [List.all_eq_true]
      intro l hl
      by_contra hne
      have hmem : l ∈ (buildSelTracks cfg j.tracks).filter (fun l => !l.isEmpty) :=
        List.mem_filter.mpr ⟨hl, by simpa using hne⟩
      have hpos := List.length_pos.mpr (List.ne_nil_of_mem hmem)
      unfold countNonEmpty at h0
      omega
    rw [jetStep_none cfg j hall] at hr
    exact Option.noConfusion hr
  have hle : countNonEmpty (buildSelTracks cfg j.tracks) ≤ nCutsOf cfg := by
    unfold countNonEmpty
    calc ((buildSelTracks cfg j.tracks).filter (fun l => !l.isEmpty)).length
        ≤ (buildSelTracks cfg j.tracks).length := List.length_filter_le _ _
      _ = nCutsOf cfg := buildSelTracks_length cfg j.tracks
  exact ⟨hn, hi, e3, e4, hposn, hle⟩

/-- Claim C10, witness: the three-track jet `jetC10` emits `recC10`,
whose `TCHE` vector length equals the number of non-empty thresholds
(here 1). -/
theorem trackCounting_C10_witness :
    (jetStep cfgPlain OutVecs.empty jetC10).2 = some recC10 ∧
      recC10.tche.length = countNonEmpty (buildSelTracks cfgPlain jetC10.tracks) ∧
      1 ≤ countNonEmpty (buildSelTracks cfgPlain jetC10.tracks) := by
  have hr : (jetStep cfgPlain OutVecs.empty jetC10).2 = some recC10 := by decide
  have h := (trackCounting_C10 cfgPlain [jetC10]).2 jetC10 recC10 hr
  exact ⟨hr, h.2.2.1, h.2.2.2.2.1⟩

end BTag
